import Mathlib

/-!
Verification of the gh-notify-bridge poller (src/main.rs) against its
specification.  The Rust source is shallowly embedded: pure functions become
Lean functions over `Nat` and `String`, the stateful poll cycle becomes an
explicit state-passing function, and the external collaborators (notification
fetcher, push forwarder, durable store) are passed in as explicit inputs
(`Except`-valued fetch results, per-attempt push outcomes, a save-success
flag).  Rust `u64` arithmetic that can overflow is modelled explicitly where
it matters (`checkedSub` for the `as_secs() - 60` cutoff computation);
elsewhere the values in play are far below `2^64` and plain `Nat` is used.
Loops from the source (`loop` over years, `for` over the month table and the
notification batch) are embedded as structurally recursive functions; the year
loop uses a fuel argument that provably dominates the iteration count, so that
the function both mirrors the source loop and evaluates by kernel reduction.
-/

set_option maxRecDepth 4000

/-- Leap-year rule from `format_unix_to_iso`:
`year % 4 == 0 && (year % 100 != 0 || year % 400 == 0)`. -/
def isLeapYear (y : Nat) : Bool :=
  y % 4 == 0 && (y % 100 != 0 || y % 400 == 0)

/-- `days_in_year` as computed in the year loop of `format_unix_to_iso`. -/
def daysInYear (y : Nat) : Nat :=
  if isLeapYear y then 366 else 365

/-- The year loop of `format_unix_to_iso`: starting from 1970, subtract whole
years from the day count until fewer than one year of days remains.  The
source is an unbounded `loop`; here a fuel argument bounds the recursion.
Since every iteration removes at least 365 days, any `fuel > days` suffices,
and with such fuel the fuel case is never reached. -/
def yearLoopAux : Nat → Nat → Nat → Nat × Nat
  | 0, year, days => (year, days)
  | fuel + 1, year, days =>
    if days < daysInYear year then (year, days)
    else yearLoopAux fuel (year + 1) (days - daysInYear year)

/-- `days_in_months` table from `format_unix_to_iso`. -/
def monthTable (leap : Bool) : List Nat :=
  if leap then [31, 29, 31, 30, 31, 30, 31, 31, 30, 31, 30, 31]
  else [31, 28, 31, 30, 31, 30, 31, 31, 30, 31, 30, 31]

/-- The month loop of `format_unix_to_iso`: walk the month table, subtracting
month lengths; on the first month that is not exhausted, return `i + 1` (the
source's `month = i + 1; break`) together with the remaining days.  If the
table is exhausted the source leaves `month = 0`. -/
def monthLoop : List Nat → Nat → Nat → Nat × Nat
  | [], _, days => (0, days)
  | dim :: rest, i, days =>
    if days < dim then (i + 1, days) else monthLoop rest (i + 1) (days - dim)

/-- Calendar components of an instant, exactly as `format_unix_to_iso`
computes them before the final `format!`. -/
structure DateTime where
  year : Nat
  month : Nat
  day : Nat
  hour : Nat
  minute : Nat
  second : Nat
deriving DecidableEq, Repr

/-- The arithmetic part of `format_unix_to_iso`: split `secs` into calendar
components via the year loop and the month loop. -/
def unixToComponents (secs : Nat) : DateTime :=
  let days_since_epoch := secs / 86400
  let time_of_day := secs % 86400
  let hours := time_of_day / 3600
  let minutes := (time_of_day % 3600) / 60
  let seconds := time_of_day % 60
  let yd := yearLoopAux (days_since_epoch + 1) 1970 days_since_epoch
  let md := monthLoop (monthTable (isLeapYear yd.1)) 0 yd.2
  ⟨yd.1, md.1, md.2 + 1, hours, minutes, seconds⟩

/-- Decimal digit character, `48 + d` as a code point. -/
def digitChar (d : Nat) : Char :=
  Char.ofNat (48 + d)

/-- Decimal rendering of a `Nat`, most significant digit first, as Rust's
`{}` formatting produces (`0` renders as `"0"`).  Fuel-based structural
recursion; `fuel > n` always suffices since the argument shrinks by `/ 10`. -/
def natDigitsAux : Nat → Nat → List Char
  | 0, _ => []
  | fuel + 1, n =>
    if n < 10 then [digitChar n]
    else natDigitsAux fuel (n / 10) ++ [digitChar (n % 10)]

/-- Decimal digits of `n`. -/
def natDigits (n : Nat) : List Char :=
  natDigitsAux (n + 1) n

/-- Rust's `{:0w}` zero-padded formatting: the decimal digits, left padded
with `'0'` to a minimum width `w`. -/
def fmtPad (w n : Nat) : List Char :=
  List.replicate (w - (natDigits n).length) '0' ++ natDigits n

/-- The character sequence produced by the final
`format!("{:04}-{:02}-{:02}T{:02}:{:02}:{:02}Z", ...)` of
`format_unix_to_iso`. -/
def renderChars (c : DateTime) : List Char :=
  fmtPad 4 c.year ++ '-' :: fmtPad 2 c.month ++ '-' :: fmtPad 2 c.day ++
    'T' :: fmtPad 2 c.hour ++ ':' :: fmtPad 2 c.minute ++ ':' :: fmtPad 2 c.second ++ ['Z']

/-- `format_unix_to_iso` from the source: unix seconds to
`YYYY-MM-DDTHH:MM:SSZ`. -/
def format_unix_to_iso (secs : Nat) : String :=
  String.mk (renderChars (unixToComponents secs))

/-- Rust `u64` subtraction as used in `poll_and_push` for the cutoff
(`as_secs() - 60`): defined only when no underflow occurs.  An underflowing
`u64` subtraction is an arithmetic-overflow program error in Rust (a panic in
debug profiles), modelled here as `none`. -/
def checkedSub (a b : Nat) : Option Nat :=
  if b ≤ a then some (a - b) else none

/-- The first-poll cutoff computation of `poll_and_push`:
`format_unix_to_iso(now_secs - 60)`, with the `u64` subtraction modelled by
`checkedSub`. -/
def cutoffIso (now : Nat) : Option String :=
  (checkedSub now 60).map format_unix_to_iso

/-- `GitHubNotification` from the source (the fields used by the pipeline;
`subject.url` is never read). -/
structure GitHubNotification where
  id : String
  unread : Bool
  reason : String
  updated_at : String
  subjectTitle : String
  subjectKind : String
  repoFullName : String
deriving DecidableEq, Repr

/-- `PushPayload` from the source. -/
structure PushPayload where
  title : String
  body : String
  reason : String
  repo : String
  id : String
deriving DecidableEq, Repr

/-- `PersistedState` from the source (the in-memory copy, which the source
treats as authoritative). -/
structure PersistedState where
  endpoint : Option String
  last_poll : Option String
deriving DecidableEq, Repr

/-- `PersistedState::save`: `let _ = fs::write(...)` — a best-effort durable
write whose failure is discarded.  Modelled as a function from the old disk
contents and a success flag to the new disk contents; on failure the durable
copy is simply not replaced, and no error reaches the caller. -/
def PersistedState.saveTo (s : PersistedState) (disk : Option PersistedState)
    (saveOk : Bool) : Option PersistedState :=
  if saveOk then some s else disk

/-- `AppState` from the source: token plus the (lock-protected) persisted
state.  The `RwLock` makes each operation atomic; operations are modelled as
pure state transformers. -/
structure AppState where
  github_token : String
  state : PersistedState
deriving Repr

/-- `AppState::get_endpoint`. -/
def AppState.get_endpoint (app : AppState) : Option String :=
  app.state.endpoint

/-- `AppState::get_last_poll`. -/
def AppState.get_last_poll (app : AppState) : Option String :=
  app.state.last_poll

/-- `AppState::set_endpoint`: update the in-memory endpoint, then attempt the
durable save (whose outcome is discarded).  Returns the new app state together
with the new disk contents. -/
def AppState.set_endpoint (app : AppState) (disk : Option PersistedState)
    (saveOk : Bool) (endpoint : String) : AppState × Option PersistedState :=
  let st := { app.state with endpoint := some endpoint }
  ({ app with state := st }, st.saveTo disk saveOk)

/-- `AppState::set_last_poll`: update the in-memory cursor, then attempt the
durable save (whose outcome is discarded). -/
def AppState.set_last_poll (app : AppState) (disk : Option PersistedState)
    (saveOk : Bool) (timestamp : String) : AppState × Option PersistedState :=
  let st := { app.state with last_poll := some timestamp }
  ({ app with state := st }, st.saveTo disk saveOk)

/-- Rust `String` ordering as used by `poll_and_push` on `updated_at`
values: lexicographic order on the character sequence (UTF-8 byte order and
scalar-value order agree), via the core list order on the string data.  Kept
as an explicit definition so that concrete cycles evaluate by kernel
reduction. -/
def strLt (a b : String) : Prop :=
  List.lt a.data b.data

instance (a b : String) : Decidable (strLt a b) :=
  List.hasDecidableLt a.data b.data

/-- The `PushPayload` built for one notification in `poll_and_push`. -/
def mkPushPayload (n : GitHubNotification) : PushPayload :=
  { title := "[" ++ n.repoFullName ++ "] " ++ n.subjectTitle
  , body := n.reason ++ ": " ++ n.subjectKind
  , reason := n.reason
  , repo := n.repoFullName
  , id := n.id }

/-- Accumulator of the `for notif in &notifications` loop in
`poll_and_push`: the running `latest_timestamp`, the `skipped` counter, the
forward attempts made so far (in order), and the per-item log lines. -/
structure LoopState where
  latest : Option String
  skipped : Nat
  pushes : List PushPayload
  logs : List String
deriving Repr

/-- Log line for one forward attempt, per the source's two `eprintln!`. -/
def pushLog (n : GitHubNotification) (r : Except String Unit) : String :=
  match r with
  | .ok _ => "Pushed: " ++ n.repoFullName ++ " - " ++ n.subjectTitle
  | .error e => "Failed to push: " ++ e

/-- One iteration of the notification loop in `poll_and_push`.  `pushResult`
gives the push forwarder's outcome for the k-th attempt of the cycle; note
the outcome is only logged, never branched on for state. -/
def pollStep (cutoff_time : Option String) (pushResult : Nat → Except String Unit)
    (ls : LoopState) (n : GitHubNotification) : LoopState :=
  if n.unread = false then ls
  else
    let latest' :=
      match ls.latest with
      | none => some n.updated_at
      | some l => if strLt l n.updated_at then some n.updated_at else some l
    let forwarded : LoopState :=
      { latest := latest'
      , skipped := ls.skipped
      , pushes := ls.pushes ++ [mkPushPayload n]
      , logs := ls.logs ++ [pushLog n (pushResult ls.pushes.length)] }
    match cutoff_time with
    | none => forwarded
    | some c =>
      if strLt n.updated_at c then
        { latest := latest', skipped := ls.skipped + 1, pushes := ls.pushes, logs := ls.logs }
      else forwarded

/-- Observable result of one poll cycle: the state after the cycle, whether
the fetcher was invoked, the forward attempts (in order), the skipped count
and the log lines. -/
structure CycleResult where
  state : PersistedState
  fetched : Bool
  pushes : List PushPayload
  skipped : Nat
  logs : List String
deriving Repr

/-- The first-poll cutoff exactly as `poll_and_push` computes it, for an
instant `now` at which the `u64` subtraction does not underflow (`now ≥ 60`;
the underflowing case is modelled by `cutoffIso`). -/
def cutoffOf (st : PersistedState) (now : Nat) : Option String :=
  if st.last_poll.isNone then some (format_unix_to_iso (now - 60)) else none

/-- `poll_and_push` from the source, as a pure function of the current state
and the cycle's external inputs: the clock reading `now` (unix seconds), the
fetcher's result, and the forwarder's per-attempt outcomes.  The in-memory
state is authoritative (the source's `set_last_poll` durable write is
best-effort and its failure discarded). -/
def poll_and_push (st : PersistedState) (now : Nat)
    (fetchResult : Except String (List GitHubNotification))
    (pushResult : Nat → Except String Unit) : CycleResult :=
  match st.endpoint with
  | none =>
    { state := st, fetched := false, pushes := [], skipped := 0
    , logs := ["No endpoint registered, skipping poll"] }
  | some _ =>
    let cutoff_time := cutoffOf st now
    match fetchResult with
    | .error e =>
      { state := st, fetched := true, pushes := [], skipped := 0
      , logs := ["Poll error: " ++ e] }
    | .ok notifs =>
      let ls := notifs.foldl (pollStep cutoff_time pushResult) ⟨none, 0, [], []⟩
      let st' :=
        match ls.latest with
        | some ts => { st with last_poll := some ts }
        | none => st
      { state := st', fetched := true, pushes := ls.pushes, skipped := ls.skipped
      , logs := ls.logs }

/-- Whether `poll_and_push` forwards a given notification (the filter of the
loop): unread, and not cut off on a first poll. -/
def qualifies (cutoff_time : Option String) (n : GitHubNotification) : Bool :=
  n.unread &&
    match cutoff_time with
    | none => true
    | some c => !decide (strLt n.updated_at c)

/-- External inputs of one poll cycle. -/
structure CycleInput where
  now : Nat
  fetchResult : Except String (List GitHubNotification)
  pushResult : Nat → Except String Unit

/-- Run one poll cycle and keep the resulting state. -/
def runCycle (st : PersistedState) (i : CycleInput) : PersistedState :=
  (poll_and_push st i.now i.fetchResult i.pushResult).state

/-- The sequence of stored cursors along a sequence of poll cycles, starting
with the initial one. -/
def cursorTrace (st : PersistedState) (is : List CycleInput) : List (Option String) :=
  (is.scanl runCycle st).map PersistedState.last_poll

/-- Lexicographic `≤` on wire timestamps (Rust `String` comparison). -/
def strLe (a b : String) : Prop :=
  strLt a b ∨ a = b

/-- `≤` between an optional old cursor and an optional new cursor: an absent
old cursor is below everything; a present cursor never becomes absent and
never lexicographically decreases. -/
def cursorLe : Option String → Option String → Prop
  | none, _ => True
  | some _, none => False
  | some a, some b => strLe a b

/-- The fetched batch of one cycle honors the `since` lower bound: every
unread record it contains has `updated_at` at or above the given cursor. -/
def batchRespects (cursor : Option String) (i : CycleInput) : Prop :=
  match i.fetchResult with
  | .error _ => True
  | .ok ns => ∀ n ∈ ns, n.unread = true → cursorLe cursor (some n.updated_at)

/-- Every cycle of the sequence is fed a batch honoring the cursor stored at
the start of that cycle. -/
def SinceRespecting : PersistedState → List CycleInput → Prop
  | _, [] => True
  | st, i :: rest => batchRespects st.last_poll i ∧ SinceRespecting (runCycle st i) rest

/-- The fetched batch of one cycle contains at least one unread record. -/
def hasUnread (i : CycleInput) : Prop :=
  ∃ ns, i.fetchResult = .ok ns ∧ ∃ n ∈ ns, n.unread = true

/-- Day count of the Gregorian years `[y, y + k)`, used as the reference
inverse of the year loop. -/
def daysFromYears : Nat → Nat → Nat
  | _, 0 => 0
  | y, k + 1 => daysInYear y + daysFromYears (y + 1) k

/-- Length of a month under the Gregorian rules (the source's month table). -/
def daysInMonth (leap : Bool) : Nat → Nat
  | 1 => 31
  | 2 => if leap then 29 else 28
  | 3 => 31
  | 4 => 30
  | 5 => 31
  | 6 => 30
  | 7 => 31
  | 8 => 31
  | 9 => 30
  | 10 => 31
  | 11 => 30
  | 12 => 31
  | _ => 0

/-- Days of the year that precede a given month. -/
def daysBeforeMonth (leap : Bool) : Nat → Nat
  | 1 => 0
  | 2 => 31
  | 3 => 59 + if leap then 1 else 0
  | 4 => 90 + if leap then 1 else 0
  | 5 => 120 + if leap then 1 else 0
  | 6 => 151 + if leap then 1 else 0
  | 7 => 181 + if leap then 1 else 0
  | 8 => 212 + if leap then 1 else 0
  | 9 => 243 + if leap then 1 else 0
  | 10 => 273 + if leap then 1 else 0
  | 11 => 304 + if leap then 1 else 0
  | 12 => 334 + if leap then 1 else 0
  | _ => 0

/-- Reference inverse of the calendar split: days since the epoch of a
calendar date. -/
def civilToDays (c : DateTime) : Nat :=
  daysFromYears 1970 (c.year - 1970) + daysBeforeMonth (isLeapYear c.year) c.month + (c.day - 1)

/-- Reference inverse of `unixToComponents`: unix seconds of a calendar
date-time. -/
def fromComponents (c : DateTime) : Nat :=
  civilToDays c * 86400 + c.hour * 3600 + c.minute * 60 + c.second

/-- Validity of calendar components under the Gregorian rules: month in
range, day within the month's length (29 for February only in leap years),
time fields in range, year from the epoch on. -/
def ValidDT (c : DateTime) : Prop :=
  1970 ≤ c.year ∧ 1 ≤ c.month ∧ c.month ≤ 12 ∧ 1 ≤ c.day ∧
    c.day ≤ daysInMonth (isLeapYear c.year) c.month ∧
    c.hour < 24 ∧ c.minute < 60 ∧ c.second < 60

/-- Lexicographic order on calendar components. -/
def dtLex (a b : DateTime) : Prop :=
  a.year < b.year ∨ (a.year = b.year ∧ (a.month < b.month ∨ (a.month = b.month ∧
    (a.day < b.day ∨ (a.day = b.day ∧ (a.hour < b.hour ∨ (a.hour = b.hour ∧
      (a.minute < b.minute ∨ (a.minute = b.minute ∧ a.second < b.second)))))))))

/-- Fixed-width big-endian decimal digits of `n`: exactly `w` digit
characters, the zero-padded decimal representation of any `n < 10 ^ w`. -/
def padDigits : Nat → Nat → List Char
  | 0, _ => []
  | w + 1, n => digitChar (n / 10 ^ w) :: padDigits w (n % 10 ^ w)

/-- Unix seconds of `10000-01-01T00:00:00Z`, the first instant whose rendered
year no longer has four digits. -/
def yearTenThousand : Nat := 253402300800

/-! ### Basic facts about the order on wire timestamps -/

theorem strLt_iff {a b : String} : strLt a b ↔ a < b := by
  rw [String.lt_iff_toList_lt]
  exact List.lt_iff_lex_lt a.data b.data

theorem strLe_refl (a : String) : strLe a a := Or.inr rfl

theorem strLe_iff_le {a b : String} : strLe a b ↔ a ≤ b := by
  rw [le_iff_lt_or_eq]
  exact or_congr strLt_iff Iff.rfl

theorem strLe_trans {a b c : String} (h1 : strLe a b) (h2 : strLe b c) : strLe a c := by
  rw [strLe_iff_le] at h1 h2 ⊢
  exact le_trans h1 h2

theorem strLe_of_not_lt {a b : String} (h : ¬ strLt a b) : strLe b a := by
  rw [strLe_iff_le]
  rw [strLt_iff] at h
  exact le_of_not_lt h

theorem cursorLe_refl (a : Option String) : cursorLe a a := by
  cases a with
  | none => trivial
  | some a => exact strLe_refl a

theorem cursorLe_trans : ∀ {a b c : Option String}, cursorLe a b → cursorLe b c → cursorLe a c
  | none, _, _, _, _ => trivial
  | some _, none, _, h1, _ => h1.elim
  | some _, some _, none, _, h2 => h2.elim
  | some _, some _, some _, h1, h2 => strLe_trans h1 h2

instance : IsTrans (Option String) cursorLe := ⟨fun _ _ _ => cursorLe_trans⟩

/-! ### Simple cycle-shape lemmas -/

theorem foldl_pollStep_all_read (c : Option String) (p : Nat → Except String Unit) :
    ∀ (ns : List GitHubNotification) (ls : LoopState),
      (∀ n ∈ ns, n.unread = false) → List.foldl (pollStep c p) ls ns = ls
  | [], _, _ => rfl
  | n :: rest, ls, h => by
    have hn : n.unread = false := h n (by simp)
    have hstep : pollStep c p ls n = ls := by simp [pollStep, hn]
    rw [List.foldl_cons, hstep]
    exact foldl_pollStep_all_read c p rest ls fun m hm => h m (by simp [hm])

/-- Claim C9: a poll cycle run with the endpoint absent performs zero fetch
calls and zero forward calls and leaves the state (endpoint and cursor)
unchanged. -/
theorem no_endpoint_noop (st : PersistedState) (now : Nat)
    (f : Except String (List GitHubNotification)) (p : Nat → Except String Unit)
    (h : st.endpoint = none) :
    (poll_and_push st now f p).fetched = false ∧ (poll_and_push st now f p).pushes = [] ∧
      (poll_and_push st now f p).state = st := by
  simp [poll_and_push, h]

theorem no_endpoint_noop_witness :
    (poll_and_push ⟨none, none⟩ 0 (.ok []) (fun _ => .ok ())).fetched = false ∧
      (poll_and_push ⟨none, none⟩ 0 (.ok []) (fun _ => .ok ())).pushes = [] ∧
      (poll_and_push ⟨none, none⟩ 0 (.ok []) (fun _ => .ok ())).state = ⟨none, none⟩ :=
  no_endpoint_noop ⟨none, none⟩ 0 (.ok []) (fun _ => .ok ()) rfl

/-- Claim C4: with an endpoint registered, a cycle whose fetch fails performs
no forward attempts and leaves both the endpoint and the cursor exactly as
they were (the cycle is a no-op failure). -/
theorem fetch_error_noop (st : PersistedState) (ep : String) (now : Nat) (msg : String)
    (p : Nat → Except String Unit) (h : st.endpoint = some ep) :
    (poll_and_push st now (.error msg) p).state = st ∧
      (poll_and_push st now (.error msg) p).pushes = [] := by
  simp [poll_and_push, h]

theorem fetch_error_noop_witness :
    (poll_and_push ⟨some "https://push.example/ep1", some "2024-01-13T12:00:00Z"⟩ 1705147200
        (.error "GitHub API error: 500") (fun _ => .ok ())).state =
        ⟨some "https://push.example/ep1", some "2024-01-13T12:00:00Z"⟩ ∧
      (poll_and_push ⟨some "https://push.example/ep1", some "2024-01-13T12:00:00Z"⟩ 1705147200
        (.error "GitHub API error: 500") (fun _ => .ok ())).pushes = [] :=
  fetch_error_noop _ "https://push.example/ep1" 1705147200 "GitHub API error: 500" _ rfl

/-- Claim C7: a cycle whose fetched batch contains no unread record (the
empty batch included) forwards zero events and leaves the endpoint and the
cursor unchanged. -/
theorem no_unread_noop (st : PersistedState) (now : Nat) (ns : List GitHubNotification)
    (p : Nat → Except String Unit) (h : ∀ n ∈ ns, n.unread = false) :
    (poll_and_push st now (.ok ns) p).state = st ∧
      (poll_and_push st now (.ok ns) p).pushes = [] := by
  cases hep : st.endpoint with
  | none => simp [poll_and_push, hep]
  | some ep =>
    have hfold := foldl_pollStep_all_read (cutoffOf st now) p ns ⟨none, 0, [], []⟩ h
    simp [poll_and_push, hep, hfold]

theorem no_unread_noop_witness :
    (poll_and_push ⟨some "https://push.example/ep1", none⟩ 1705147200
        (.ok [⟨"n1", false, "subscribed", "2024-01-13T12:00:00Z", "t", "Issue", "o/r"⟩])
        (fun _ => .ok ())).state = ⟨some "https://push.example/ep1", none⟩ ∧
      (poll_and_push ⟨some "https://push.example/ep1", none⟩ 1705147200
        (.ok [⟨"n1", false, "subscribed", "2024-01-13T12:00:00Z", "t", "Issue", "o/r"⟩])
        (fun _ => .ok ())).pushes = [] :=
  no_unread_noop _ 1705147200 _ _ (by intro n hn; simp at hn; rw [hn])

/-- Claim C8: `set_endpoint` updates the in-memory endpoint whether or not
the durable save succeeds, the save outcome is not propagated to the caller
(the operation is total and returns no error), and the cursor field
`last_poll` is left unchanged. -/
theorem set_endpoint_in_memory (app : AppState) (disk : Option PersistedState)
    (saveOk : Bool) (v : String) :
    (app.set_endpoint disk saveOk v).1.get_endpoint = some v ∧
      (app.set_endpoint disk saveOk v).1.state.last_poll = app.state.last_poll :=
  ⟨rfl, rfl⟩

/-- Claim C10 (failure witness): the source computes the first-poll cutoff as
`now.as_secs() - 60` on `u64`; for `now = 0` (any instant less than 60
seconds past the epoch) this subtraction underflows, so the cutoff
computation does not succeed — contradicting the claim that it succeeds for
every non-negative instant. -/
theorem cutoff_underflow_at_zero : cutoffIso 0 = none := rfl

/-! ### Digit characters and fixed-width decimal rendering -/

theorem digitChar_lt_iff {a b : Nat} (ha : a < 10) (hb : b < 10) :
    digitChar a < digitChar b ↔ a < b := by
  interval_cases a <;> interval_cases b <;> decide

theorem digitChar_eq_iff {a b : Nat} (ha : a < 10) (hb : b < 10) :
    digitChar a = digitChar b ↔ a = b := by
  interval_cases a <;> interval_cases b <;> decide

theorem padDigits_length : ∀ (w n : Nat), (padDigits w n).length = w
  | 0, _ => rfl
  | w + 1, n => by simp [padDigits, padDigits_length w]

theorem padDigits_zero : ∀ w : Nat, padDigits w 0 = List.replicate w '0'
  | 0 => rfl
  | w + 1 => by
    show digitChar (0 / 10 ^ w) :: padDigits w (0 % 10 ^ w) = _
    rw [Nat.zero_div, Nat.zero_mod, padDigits_zero w, List.replicate_succ]
    rfl

theorem padDigits_widen : ∀ (m j n : Nat), n < 10 ^ j →
    padDigits (j + m) n = List.replicate m '0' ++ padDigits j n
  | 0, _, _, _ => by simp
  | m + 1, j, n, h => by
    have hlt : n < 10 ^ (j + m) :=
      lt_of_lt_of_le h (Nat.pow_le_pow_right (by norm_num) (Nat.le_add_right j m))
    have : j + (m + 1) = (j + m) + 1 := by omega
    rw [this]
    show digitChar (n / 10 ^ (j + m)) :: padDigits (j + m) (n % 10 ^ (j + m)) = _
    rw [Nat.div_eq_of_lt hlt, Nat.mod_eq_of_lt hlt, padDigits_widen m j n h,
      List.replicate_succ]
    rfl

theorem padDigits_snoc : ∀ (w n : Nat), n < 10 ^ (w + 1) →
    padDigits (w + 1) n = padDigits w (n / 10) ++ [digitChar (n % 10)]
  | 0, n, h => by
    show digitChar (n / 10 ^ 0) :: padDigits 0 (n % 10 ^ 0) = _
    have h10 : n % 10 = n := Nat.mod_eq_of_lt (by simpa using h)
    simp [padDigits, h10]
  | w + 1, n, h => by
    show digitChar (n / 10 ^ (w + 1)) :: padDigits (w + 1) (n % 10 ^ (w + 1)) = _
    have hmod : n % 10 ^ (w + 1) < 10 ^ (w + 1) :=
      Nat.mod_lt _ (Nat.pos_pow_of_pos _ (by norm_num))
    rw [padDigits_snoc w _ hmod]
    show _ = digitChar (n / 10 / 10 ^ w) :: (padDigits w (n / 10 % 10 ^ w) ++ _)
    have h1 : n / 10 ^ (w + 1) = n / 10 / 10 ^ w := by
      rw [Nat.div_div_eq_div_mul, ← pow_succ']
    have h2 : n % 10 ^ (w + 1) / 10 = n / 10 % 10 ^ w := by
      rw [pow_succ', Nat.mod_mul_right_div_self]
    have h3 : n % 10 ^ (w + 1) % 10 = n % 10 :=
      Nat.mod_mod_of_dvd n (dvd_pow_self 10 (Nat.succ_ne_zero w))
    rw [h1, h2, h3]

theorem nat_lt_of_div_lt {q a b : Nat} (hq : 0 < q) (hd : a / q < b / q) : a < b := by
  have hma : a % q < q := Nat.mod_lt _ hq
  have step : q * (a / q) + q ≤ q * (b / q) := by
    calc q * (a / q) + q = q * (a / q + 1) := by ring
      _ ≤ q * (b / q) := Nat.mul_le_mul_left q (Nat.succ_le_of_lt hd)
  calc a = q * (a / q) + a % q := (Nat.div_add_mod a q).symm
    _ < q * (a / q) + q := Nat.add_lt_add_left hma _
    _ ≤ q * (b / q) := step
    _ ≤ q * (b / q) + b % q := Nat.le_add_right _ _
    _ = b := Nat.div_add_mod b q

theorem nat_lt_iff_div_mod {q a b : Nat} (hq : 0 < q) :
    a < b ↔ a / q < b / q ∨ (a / q = b / q ∧ a % q < b % q) := by
  constructor
  · intro h
    rcases Nat.lt_trichotomy (a / q) (b / q) with hd | hd | hd
    · exact Or.inl hd
    · refine Or.inr ⟨hd, ?_⟩
      have hab : q * (b / q) + a % q < q * (b / q) + b % q := by
        calc q * (b / q) + a % q = q * (a / q) + a % q := by rw [hd]
          _ = a := Nat.div_add_mod a q
          _ < b := h
          _ = q * (b / q) + b % q := (Nat.div_add_mod b q).symm
      exact Nat.lt_of_add_lt_add_left hab
    · exact absurd (nat_lt_of_div_lt hq hd) (by omega)
  · rintro (hd | ⟨hd, hm⟩)
    · exact nat_lt_of_div_lt hq hd
    · calc a = q * (a / q) + a % q := (Nat.div_add_mod a q).symm
        _ < q * (a / q) + b % q := Nat.add_lt_add_left hm _
        _ = q * (b / q) + b % q := by rw [hd]
        _ = b := Nat.div_add_mod b q

theorem lex_cons_iff {x y : Char} {xs ys : List Char} :
    List.Lex (· < ·) (x :: xs) (y :: ys) ↔ x < y ∨ (x = y ∧ List.Lex (· < ·) xs ys) := by
  constructor
  · intro h
    cases h with
    | rel h => exact Or.inl h
    | cons h => exact Or.inr ⟨rfl, h⟩
  · rintro (h | ⟨rfl, h⟩)
    · exact List.Lex.rel h
    · exact List.Lex.cons h

theorem lex_append_iff : ∀ {l1 l2 : List Char}, l1.length = l2.length →
    ∀ {r1 r2 : List Char},
    (List.Lex (· < ·) (l1 ++ r1) (l2 ++ r2) ↔
      List.Lex (· < ·) l1 l2 ∨ (l1 = l2 ∧ List.Lex (· < ·) r1 r2)) := by
  intro l1
  induction l1 with
  | nil => intro l2 h r1 r2; cases l2 with
    | nil => simp [List.Lex.not_nil_right]
    | cons y ys => simp at h
  | cons x xs ih =>
    intro l2 h r1 r2
    cases l2 with
    | nil => simp at h
    | cons y ys =>
      simp only [List.length_cons, Nat.succ.injEq] at h
      simp only [List.cons_append, lex_cons_iff, ih h, List.cons.injEq]
      tauto

theorem padDigits_lex_iff : ∀ (w : Nat) {a b : Nat}, a < 10 ^ w → b < 10 ^ w →
    (List.Lex (· < ·) (padDigits w a) (padDigits w b) ↔ a < b)
  | 0, a, b, ha, hb => by
    simp only [pow_zero, Nat.lt_one_iff] at ha hb
    subst ha; subst hb
    simp [padDigits, List.Lex.not_nil_right]
  | w + 1, a, b, ha, hb => by
    have hpw : 0 < 10 ^ w := Nat.pos_pow_of_pos _ (by norm_num)
    have hda : a / 10 ^ w < 10 :=
      (Nat.div_lt_iff_lt_mul hpw).mpr (by rw [← pow_succ']; exact ha)
    have hdb : b / 10 ^ w < 10 :=
      (Nat.div_lt_iff_lt_mul hpw).mpr (by rw [← pow_succ']; exact hb)
    have hma : a % 10 ^ w < 10 ^ w := Nat.mod_lt _ hpw
    have hmb : b % 10 ^ w < 10 ^ w := Nat.mod_lt _ hpw
    show List.Lex _ (digitChar (a / 10 ^ w) :: padDigits w (a % 10 ^ w))
      (digitChar (b / 10 ^ w) :: padDigits w (b % 10 ^ w)) ↔ _
    rw [lex_cons_iff, digitChar_lt_iff hda hdb, digitChar_eq_iff hda hdb,
      padDigits_lex_iff w hma hmb, @nat_lt_iff_div_mod (10 ^ w) a b hpw]

theorem natDigitsAux_irrel : ∀ (f1 f2 : Nat) {n : Nat}, n < f1 → n < f2 →
    natDigitsAux f1 n = natDigitsAux f2 n
  | 0, _, _, h1, _ => absurd h1 (Nat.not_lt_zero _)
  | f1 + 1, f2, n, h1, h2 => by
    cases f2 with
    | zero => exact absurd h2 (Nat.not_lt_zero _)
    | succ g =>
      show natDigitsAux (f1 + 1) n = natDigitsAux (g + 1) n
      by_cases hn : n < 10
      · simp [natDigitsAux, hn]
      · have hrec : n / 10 < n := Nat.div_lt_self (by omega) (by norm_num)
        have e1 : natDigitsAux f1 (n / 10) = natDigitsAux g (n / 10) :=
          natDigitsAux_irrel f1 g (by omega) (by omega)
        simp [natDigitsAux, hn, e1]

theorem natDigits_small {n : Nat} (h : n < 10) : natDigits n = [digitChar n] := by
  simp [natDigits, natDigitsAux, h]

theorem natDigits_step {n : Nat} (h : 10 ≤ n) :
    natDigits n = natDigits (n / 10) ++ [digitChar (n % 10)] := by
  have hrec : n / 10 < n := Nat.div_lt_self (by omega) (by norm_num)
  show natDigitsAux (n + 1) n = _
  have hunf : natDigitsAux (n + 1) n =
      if n < 10 then [digitChar n] else natDigitsAux n (n / 10) ++ [digitChar (n % 10)] := rfl
  rw [hunf, if_neg (by omega), natDigitsAux_irrel n (n / 10 + 1) (by omega) (by omega)]
  rfl

theorem natDigits_eq_padDigits : ∀ (w : Nat) {n : Nat}, 10 ^ w ≤ n → n < 10 ^ (w + 1) →
    natDigits n = padDigits (w + 1) n
  | 0, n, hl, hu => by
    have hu' : n < 10 := by simpa using hu
    rw [natDigits_small hu']
    show [digitChar n] = digitChar (n / 10 ^ 0) :: padDigits 0 (n % 10 ^ 0)
    rw [pow_zero, Nat.div_one]
    rfl
  | w + 1, n, hl, hu => by
    have h10 : 10 ≤ n := by
      have : (10 : Nat) ^ 1 ≤ 10 ^ (w + 1) := Nat.pow_le_pow_right (by norm_num) (by omega)
      rw [pow_one] at this
      exact le_trans this hl
    have hl2 : 10 ^ w ≤ n / 10 := by
      rw [Nat.le_div_iff_mul_le (by norm_num : 0 < 10)]
      rw [← pow_succ]
      exact hl
    have hu2 : n / 10 < 10 ^ (w + 1) := by
      rw [Nat.div_lt_iff_lt_mul (by norm_num : 0 < 10)]
      rw [← pow_succ]
      exact hu
    rw [natDigits_step h10, natDigits_eq_padDigits w hl2 hu2,
      ← padDigits_snoc (w + 1) n hu]

theorem fmtPad_eq_padDigits {w n : Nat} (hw : 1 ≤ w) (hn : n < 10 ^ w) :
    fmtPad w n = padDigits w n := by
  rcases Nat.eq_zero_or_pos n with rfl | hpos
  · show List.replicate (w - (natDigits 0).length) '0' ++ natDigits 0 = _
    rw [padDigits_zero, natDigits_small (by norm_num)]
    show List.replicate (w - 1) '0' ++ [digitChar 0] = _
    have hrepl : List.replicate w '0' = List.replicate (w - 1) '0' ++ ['0'] := by
      have hw' : w = (w - 1) + 1 := by omega
      rw [hw', List.replicate_succ']
      simp
    rw [hrepl]
    rfl
  · have hne : n ≠ 0 := by omega
    set k := Nat.log 10 n with hk
    have hlk : 10 ^ k ≤ n := Nat.pow_log_le_self 10 hne
    have huk : n < 10 ^ (k + 1) := Nat.lt_pow_succ_log_self (by norm_num) n
    have hkw : k + 1 ≤ w := by
      by_contra hcon
      have hwk : w ≤ k := by omega
      have : 10 ^ w ≤ 10 ^ k := Nat.pow_le_pow_right (by norm_num) hwk
      omega
    rw [fmtPad, natDigits_eq_padDigits k hlk huk, padDigits_length]
    have hsplit : w = (k + 1) + (w - (k + 1)) := by omega
    rw [hsplit, padDigits_widen (w - (k + 1)) (k + 1) n huk]
    have : (k + 1) + (w - (k + 1)) - (k + 1) = w - (k + 1) := by omega
    rw [this]

theorem daysInYear_ge : ∀ y : Nat, 365 ≤ daysInYear y := by
  intro y
  rw [daysInYear]
  split <;> omega

theorem daysFromYears_succ_right : ∀ (k y : Nat),
    daysFromYears y (k + 1) = daysFromYears y k + daysInYear (y + k)
  | 0, y => by simp [daysFromYears]
  | k + 1, y => by
    show daysInYear y + daysFromYears (y + 1) (k + 1) = _
    rw [daysFromYears_succ_right k (y + 1)]
    show _ = daysInYear y + daysFromYears (y + 1) k + daysInYear (y + (k + 1))
    have : y + 1 + k = y + (k + 1) := by omega
    rw [this]
    omega

theorem daysFromYears_add : ∀ (b a y : Nat),
    daysFromYears y (a + b) = daysFromYears y a + daysFromYears (y + a) b
  | 0, a, y => by simp [daysFromYears]
  | b + 1, a, y => by
    have h1 : a + (b + 1) = (a + b) + 1 := by omega
    rw [h1, daysFromYears_succ_right (a + b) y, daysFromYears_add b a y,
      daysFromYears_succ_right b (y + a)]
    have h2 : y + a + b = y + (a + b) := by omega
    rw [h2]
    omega

theorem yearLoopAux_spec : ∀ (fuel year days : Nat), days < fuel →
    year ≤ (yearLoopAux fuel year days).1 ∧
      (yearLoopAux fuel year days).2 < daysInYear (yearLoopAux fuel year days).1 ∧
      daysFromYears year ((yearLoopAux fuel year days).1 - year) +
        (yearLoopAux fuel year days).2 = days
  | 0, _, _, h => absurd h (Nat.not_lt_zero _)
  | fuel + 1, year, days, h => by
    by_cases hd : days < daysInYear year
    · have hres : yearLoopAux (fuel + 1) year days = (year, days) := by
        show (if days < daysInYear year then (year, days) else _) = _
        rw [if_pos hd]
      rw [hres]
      refine ⟨le_refl _, hd, ?_⟩
      simp [daysFromYears]
    · have hge : 365 ≤ daysInYear year := daysInYear_ge year
      have hfuel : days - daysInYear year < fuel := by omega
      have hres : yearLoopAux (fuel + 1) year days =
          yearLoopAux fuel (year + 1) (days - daysInYear year) := by
        show (if days < daysInYear year then (year, days) else _) = _
        rw [if_neg hd]
      rw [hres]
      obtain ⟨h1, h2, h3⟩ := yearLoopAux_spec fuel (year + 1) (days - daysInYear year) hfuel
      refine ⟨by omega, h2, ?_⟩
      set r := yearLoopAux fuel (year + 1) (days - daysInYear year) with hr
      have hk : r.1 - year = (r.1 - (year + 1)) + 1 := by omega
      rw [hk]
      show daysInYear year + daysFromYears (year + 1) (r.1 - (year + 1)) + r.2 = days
      omega

theorem monthLoop_spec_nonleap :
    ∀ d : Nat, d < 365 →
      1 ≤ (monthLoop (monthTable false) 0 d).1 ∧ (monthLoop (monthTable false) 0 d).1 ≤ 12 ∧
      (monthLoop (monthTable false) 0 d).2 < daysInMonth false (monthLoop (monthTable false) 0 d).1 ∧
      daysBeforeMonth false (monthLoop (monthTable false) 0 d).1 +
        (monthLoop (monthTable false) 0 d).2 = d := by
  decide

theorem monthLoop_spec_leap :
    ∀ d : Nat, d < 366 →
      1 ≤ (monthLoop (monthTable true) 0 d).1 ∧ (monthLoop (monthTable true) 0 d).1 ≤ 12 ∧
      (monthLoop (monthTable true) 0 d).2 < daysInMonth true (monthLoop (monthTable true) 0 d).1 ∧
      daysBeforeMonth true (monthLoop (monthTable true) 0 d).1 +
        (monthLoop (monthTable true) 0 d).2 = d := by
  decide

theorem unixToComponents_spec (secs : Nat) :
    ValidDT (unixToComponents secs) ∧ fromComponents (unixToComponents secs) = secs := by
  obtain ⟨hy1, hy2, hy3⟩ :=
    yearLoopAux_spec (secs / 86400 + 1) 1970 (secs / 86400) (Nat.lt_succ_self _)
  set yd := yearLoopAux (secs / 86400 + 1) 1970 (secs / 86400) with hyd
  have hmspec : 1 ≤ (monthLoop (monthTable (isLeapYear yd.1)) 0 yd.2).1 ∧
      (monthLoop (monthTable (isLeapYear yd.1)) 0 yd.2).1 ≤ 12 ∧
      (monthLoop (monthTable (isLeapYear yd.1)) 0 yd.2).2 <
        daysInMonth (isLeapYear yd.1) (monthLoop (monthTable (isLeapYear yd.1)) 0 yd.2).1 ∧
      daysBeforeMonth (isLeapYear yd.1) (monthLoop (monthTable (isLeapYear yd.1)) 0 yd.2).1 +
        (monthLoop (monthTable (isLeapYear yd.1)) 0 yd.2).2 = yd.2 := by
    cases hleap : isLeapYear yd.1 with
    | false =>
      have hlt : yd.2 < 365 := by
        rw [daysInYear, hleap] at hy2
        simpa using hy2
      exact monthLoop_spec_nonleap yd.2 hlt
    | true =>
      have hlt : yd.2 < 366 := by
        rw [daysInYear, hleap] at hy2
        simpa using hy2
      exact monthLoop_spec_leap yd.2 hlt
  set md := monthLoop (monthTable (isLeapYear yd.1)) 0 yd.2 with hmd
  have hcomp : unixToComponents secs =
      ⟨yd.1, md.1, md.2 + 1, secs % 86400 / 3600, secs % 86400 % 3600 / 60,
        secs % 86400 % 60⟩ := rfl
  rw [hcomp]
  obtain ⟨hm1, hm2, hm3, hm4⟩ := hmspec
  constructor
  · simp only [ValidDT]
    refine ⟨hy1, hm1, hm2, by omega, ?_, by omega, by omega, by omega⟩
    show md.2 + 1 ≤ daysInMonth (isLeapYear yd.1) md.1
    omega
  · show (daysFromYears 1970 (yd.1 - 1970) + daysBeforeMonth (isLeapYear yd.1) md.1 +
      (md.2 + 1 - 1)) * 86400 + secs % 86400 / 3600 * 3600 +
      secs % 86400 % 3600 / 60 * 60 + secs % 86400 % 60 = secs
    omega

/-! ### Strict monotonicity of the calendar encoding -/

theorem dbm_add_dim_le (leap : Bool) : ∀ m, m < 13 → 1 ≤ m →
    daysBeforeMonth leap m + daysInMonth leap m ≤ if leap then 366 else 365 := by
  cases leap <;> decide

theorem dbm_mono (leap : Bool) : ∀ m1, m1 < 13 → ∀ m2, m2 < 13 → 1 ≤ m1 → m1 < m2 →
    daysBeforeMonth leap m1 + daysInMonth leap m1 ≤ daysBeforeMonth leap m2 := by
  cases leap <;> decide

theorem daysFromYears_le (y : Nat) {k1 k2 : Nat} (h : k1 ≤ k2) :
    daysFromYears y k1 ≤ daysFromYears y k2 := by
  have hadd := daysFromYears_add (k2 - k1) k1 y
  have hk : k1 + (k2 - k1) = k2 := by omega
  rw [hk] at hadd
  omega

theorem fromComponents_lt {c1 c2 : DateTime} (v1 : ValidDT c1) (v2 : ValidDT c2)
    (h : dtLex c1 c2) : fromComponents c1 < fromComponents c2 := by
  obtain ⟨hy1, hm1a, hm1b, hd1a, hd1b, hh1, hmi1, hs1⟩ := v1
  obtain ⟨hy2, hm2a, hm2b, hd2a, hd2b, hh2, hmi2, hs2⟩ := v2
  have hcb1 : daysBeforeMonth (isLeapYear c1.year) c1.month + (c1.day - 1) <
      daysInYear c1.year := by
    have hb := dbm_add_dim_le (isLeapYear c1.year) c1.month (by omega) hm1a
    rw [daysInYear]
    omega
  simp only [dtLex] at h
  rcases h with hy | ⟨hye, hm | ⟨hme, hd | ⟨hde, hh | ⟨hhe, hmi | ⟨hmie, hs⟩⟩⟩⟩⟩
  · have hk : c1.year - 1970 + 1 ≤ c2.year - 1970 := by omega
    have hstep : daysFromYears 1970 ((c1.year - 1970) + 1) =
        daysFromYears 1970 (c1.year - 1970) + daysInYear c1.year := by
      have hs' := daysFromYears_succ_right (c1.year - 1970) 1970
      have harg : 1970 + (c1.year - 1970) = c1.year := by omega
      rw [harg] at hs'
      exact hs'
    have hmono := daysFromYears_le 1970 hk
    have hciv : civilToDays c1 < civilToDays c2 := by
      simp only [civilToDays]
      omega
    simp only [fromComponents]
    omega
  · have hmm := dbm_mono (isLeapYear c1.year) c1.month (by omega) c2.month (by omega) hm1a hm
    simp only [fromComponents, civilToDays, ← hye]
    omega
  · simp only [fromComponents, civilToDays, ← hye, ← hme]
    omega
  · simp only [fromComponents, civilToDays, ← hye, ← hme, ← hde]
    omega
  · simp only [fromComponents, civilToDays, ← hye, ← hme, ← hde, ← hhe]
    omega
  · simp only [fromComponents, civilToDays, ← hye, ← hme, ← hde, ← hhe, ← hmie]
    omega

theorem dtLex_total (c1 c2 : DateTime) : dtLex c1 c2 ∨ c1 = c2 ∨ dtLex c2 c1 := by
  obtain ⟨y1, m1, d1, h1, mi1, s1⟩ := c1
  obtain ⟨y2, m2, d2, h2, mi2, s2⟩ := c2
  simp only [dtLex, DateTime.mk.injEq]
  omega

theorem fromComponents_inj {c1 c2 : DateTime} (v1 : ValidDT c1) (v2 : ValidDT c2)
    (h : fromComponents c1 = fromComponents c2) : c1 = c2 := by
  rcases dtLex_total c1 c2 with hl | he | hl
  · exact absurd (fromComponents_lt v1 v2 hl) (by omega)
  · exact he
  · exact absurd (fromComponents_lt v2 v1 hl) (by omega)

theorem unixToComponents_eq {secs : Nat} {c : DateTime} (v : ValidDT c)
    (h : fromComponents c = secs) : unixToComponents secs = c := by
  obtain ⟨v0, h0⟩ := unixToComponents_spec secs
  exact fromComponents_inj v0 v (by rw [h0, h])

/-! ### A closed form for the year-span day count -/

theorem isLeapYear_iff (y : Nat) :
    isLeapYear y = true ↔ (y % 4 = 0 ∧ (y % 100 ≠ 0 ∨ y % 400 = 0)) := by
  rw [isLeapYear]
  simp [Bool.and_eq_true, Bool.or_eq_true, beq_iff_eq, bne_iff_ne]

theorem daysFromYears_1970_closed : ∀ k : Nat,
    daysFromYears 1970 k + 1969 / 4 + (1969 + k) / 100 + 1969 / 400 =
      365 * k + (1969 + k) / 4 + 1969 / 100 + (1969 + k) / 400 := by
  intro k
  induction k with
  | zero => rfl
  | succ k ih =>
    rw [daysFromYears_succ_right k 1970]
    by_cases hl : (1970 + k) % 4 = 0 ∧ ((1970 + k) % 100 ≠ 0 ∨ (1970 + k) % 400 = 0)
    · have hiy : daysInYear (1970 + k) = 366 := by
        rw [daysInYear, if_pos ((isLeapYear_iff (1970 + k)).mpr hl)]
      omega
    · have hiy : daysInYear (1970 + k) = 365 := by
        rw [daysInYear, if_neg]
        intro hcon
        exact hl ((isLeapYear_iff (1970 + k)).mp hcon)
      omega

theorem daysFromYears_1970_8030 : daysFromYears 1970 8030 = 2932897 := by
  have h := daysFromYears_1970_closed 8030
  norm_num at h
  omega

theorem daysFromYears_1970_8029 : daysFromYears 1970 8029 = 2932532 := by
  have h := daysFromYears_1970_closed 8029
  norm_num at h
  omega

theorem year_le_9999 {secs : Nat} (h : secs < 253402300800) :
    (unixToComponents secs).year ≤ 9999 := by
  obtain ⟨⟨hy1, _, _, _, _, _, _, _⟩, hrt⟩ := unixToComponents_spec secs
  by_contra hy
  have hk : 8030 ≤ (unixToComponents secs).year - 1970 := by omega
  have hmono := daysFromYears_le 1970 hk
  rw [daysFromYears_1970_8030] at hmono
  simp only [fromComponents, civilToDays] at hrt
  omega

theorem format_eq_render {secs : Nat} {c : DateTime} (v : ValidDT c)
    (h : fromComponents c = secs) : format_unix_to_iso secs = String.mk (renderChars c) := by
  rw [format_unix_to_iso, unixToComponents_eq v h]

theorem fmt_at_253402300830 : format_unix_to_iso 253402300830 = "10000-01-01T00:00:30Z" := by
  have hv : ValidDT ⟨10000, 1, 1, 0, 0, 30⟩ := by
    simp only [ValidDT]
    decide
  have hc : fromComponents ⟨10000, 1, 1, 0, 0, 30⟩ = 253402300830 := by
    simp only [fromComponents, civilToDays]
    norm_num [daysFromYears_1970_8030, show daysBeforeMonth (isLeapYear 10000) 1 = 0 from rfl]
  rw [format_eq_render hv hc]
  decide

theorem fmt_at_253402300770 : format_unix_to_iso 253402300770 = "9999-12-31T23:59:30Z" := by
  have hv : ValidDT ⟨9999, 12, 31, 23, 59, 30⟩ := by
    simp only [ValidDT]
    decide
  have hc : fromComponents ⟨9999, 12, 31, 23, 59, 30⟩ = 253402300770 := by
    simp only [fromComponents, civilToDays]
    norm_num [daysFromYears_1970_8029, show daysBeforeMonth (isLeapYear 9999) 12 = 334 from rfl]
  rw [format_eq_render hv hc]
  decide

/-! ### Lexicographic monotonicity of the rendered timestamp -/

theorem string_lt_iff {l1 l2 : List Char} :
    String.mk l1 < String.mk l2 ↔ List.Lex (· < ·) l1 l2 := by
  rw [String.lt_iff_toList_lt]
  exact Iff.rfl

theorem lex_seg {w a b : Nat} {r1 r2 : List Char} (ha : a < 10 ^ w) (hb : b < 10 ^ w)
    (h : a < b ∨ (a = b ∧ List.Lex (· < ·) r1 r2)) :
    List.Lex (· < ·) (padDigits w a ++ r1) (padDigits w b ++ r2) := by
  refine (lex_append_iff ?_).mpr ?_
  · rw [padDigits_length, padDigits_length]
  · rcases h with h | ⟨rfl, h⟩
    · exact Or.inl ((padDigits_lex_iff w ha hb).mpr h)
    · exact Or.inr ⟨rfl, h⟩

theorem dim_le_31 (leap : Bool) (m : Nat) : daysInMonth leap m ≤ 31 := by
  unfold daysInMonth
  split <;> first | omega | (split_ifs <;> omega)

theorem renderChars_lex {c1 c2 : DateTime} (v1 : ValidDT c1) (v2 : ValidDT c2)
    (hy1 : c1.year ≤ 9999) (hy2 : c2.year ≤ 9999) (h : dtLex c1 c2) :
    List.Lex (· < ·) (renderChars c1) (renderChars c2) := by
  obtain ⟨ha1, hb1, hc1, hd1, he1, hf1, hg1, hh1⟩ := v1
  obtain ⟨ha2, hb2, hc2, hd2, he2, hf2, hg2, hh2⟩ := v2
  have hp4 : (10 : Nat) ^ 4 = 10000 := by norm_num
  have hp2 : (10 : Nat) ^ 2 = 100 := by norm_num
  have hdm1 := dim_le_31 (isLeapYear c1.year) c1.month
  have hdm2 := dim_le_31 (isLeapYear c2.year) c2.month
  have hy1p : c1.year < 10 ^ 4 := by omega
  have hy2p : c2.year < 10 ^ 4 := by omega
  have hm1p : c1.month < 10 ^ 2 := by omega
  have hm2p : c2.month < 10 ^ 2 := by omega
  have hd1p : c1.day < 10 ^ 2 := by omega
  have hd2p : c2.day < 10 ^ 2 := by omega
  have hh1p : c1.hour < 10 ^ 2 := by omega
  have hh2p : c2.hour < 10 ^ 2 := by omega
  have hmi1p : c1.minute < 10 ^ 2 := by omega
  have hmi2p : c2.minute < 10 ^ 2 := by omega
  have hs1p : c1.second < 10 ^ 2 := by omega
  have hs2p : c2.second < 10 ^ 2 := by omega
  simp only [renderChars]
  rw [fmtPad_eq_padDigits (by norm_num) hy1p, fmtPad_eq_padDigits (by norm_num) hy2p,
    fmtPad_eq_padDigits (by norm_num) hm1p, fmtPad_eq_padDigits (by norm_num) hm2p,
    fmtPad_eq_padDigits (by norm_num) hd1p, fmtPad_eq_padDigits (by norm_num) hd2p,
    fmtPad_eq_padDigits (by norm_num) hh1p, fmtPad_eq_padDigits (by norm_num) hh2p,
    fmtPad_eq_padDigits (by norm_num) hmi1p, fmtPad_eq_padDigits (by norm_num) hmi2p,
    fmtPad_eq_padDigits (by norm_num) hs1p, fmtPad_eq_padDigits (by norm_num) hs2p]
  simp only [dtLex] at h
  refine lex_seg hy1p hy2p ?_
  rcases h with hy | ⟨hye, h⟩
  · exact Or.inl hy
  refine Or.inr ⟨hye, List.Lex.cons ?_⟩
  refine lex_seg hm1p hm2p ?_
  rcases h with hm | ⟨hme, h⟩
  · exact Or.inl hm
  refine Or.inr ⟨hme, List.Lex.cons ?_⟩
  refine lex_seg hd1p hd2p ?_
  rcases h with hd | ⟨hde, h⟩
  · exact Or.inl hd
  refine Or.inr ⟨hde, List.Lex.cons ?_⟩
  refine lex_seg hh1p hh2p ?_
  rcases h with hh | ⟨hhe, h⟩
  · exact Or.inl hh
  refine Or.inr ⟨hhe, List.Lex.cons ?_⟩
  refine lex_seg hmi1p hmi2p ?_
  rcases h with hmi | ⟨hmie, hs⟩
  · exact Or.inl hmi
  refine Or.inr ⟨hmie, List.Lex.cons ?_⟩
  exact lex_seg hs1p hs2p (Or.inl hs)

theorem format_lt {s1 s2 : Nat} (h : s1 < s2) (hb : s2 < 253402300800) :
    format_unix_to_iso s1 < format_unix_to_iso s2 := by
  obtain ⟨v1, r1⟩ := unixToComponents_spec s1
  obtain ⟨v2, r2⟩ := unixToComponents_spec s2
  have hy1 : (unixToComponents s1).year ≤ 9999 := year_le_9999 (by omega)
  have hy2 : (unixToComponents s2).year ≤ 9999 := year_le_9999 hb
  have hlex : dtLex (unixToComponents s1) (unixToComponents s2) := by
    rcases dtLex_total (unixToComponents s1) (unixToComponents s2) with hl | he | hl
    · exact hl
    · exfalso
      rw [he] at r1
      omega
    · exfalso
      have := fromComponents_lt v2 v1 hl
      omega
  show String.mk _ < String.mk _
  exact string_lt_iff.mpr (renderChars_lex v1 v2 hy1 hy2 hlex)

theorem format_le {s1 s2 : Nat} (h : s1 ≤ s2) (hb : s2 < 253402300800) :
    strLe (format_unix_to_iso s1) (format_unix_to_iso s2) := by
  rcases Nat.lt_or_ge s1 s2 with hlt | hge
  · exact Or.inl (strLt_iff.mpr (format_lt hlt hb))
  · have : s1 = s2 := by omega
    rw [this]
    exact strLe_refl _

/-! ### The rendered timestamp re-parses to the same components -/

/-- Claim C6 (amended): for every instant `now` with `60 ≤ now` that lies
before `10000-01-01T00:00:00Z` (unix second 253402300800, the first instant
whose rendered year has five digits), the first-poll cutoff
`to_wire(now - 60)` is lexicographically at most `to_wire(now)`; and more
generally `to_wire` is monotone from numeric ordering to lexicographic
ordering on instants below that bound.  The bound is forced: at the
9999→10000 year boundary the fixed-width `{:04}` year field overflows and
lexicographic order diverges from chronological order (see the
counterexample). -/
theorem cutoff_le_now_amended :
    (∀ now : Nat, 60 ≤ now → now < 253402300800 →
      strLe (format_unix_to_iso (now - 60)) (format_unix_to_iso now)) ∧
    (∀ s1 s2 : Nat, s1 ≤ s2 → s2 < 253402300800 →
      strLe (format_unix_to_iso s1) (format_unix_to_iso s2)) := by
  constructor
  · intro now h1 h2
    exact format_le (by omega) h2
  · intro s1 s2 h hb
    exact format_le h hb

theorem cutoff_le_now_witness :
    strLe (format_unix_to_iso (100 - 60)) (format_unix_to_iso 100) :=
  cutoff_le_now_amended.1 100 (by norm_num) (by norm_num)

theorem cutoff_le_now_counterexample :
    format_unix_to_iso 253402300830 < format_unix_to_iso (253402300830 - 60) := by
  have he : (253402300830 : Nat) - 60 = 253402300770 := by norm_num
  rw [he, fmt_at_253402300830, fmt_at_253402300770, String.lt_iff_toList_lt]
  decide

/-! ### Shape of the notification loop -/

theorem foldl_pollStep_indep (c : Option String) (q1 q2 : Nat → Except String Unit) :
    ∀ (ns : List GitHubNotification) (ls1 ls2 : LoopState),
      ls1.latest = ls2.latest → ls1.skipped = ls2.skipped → ls1.pushes = ls2.pushes →
      (List.foldl (pollStep c q1) ls1 ns).latest = (List.foldl (pollStep c q2) ls2 ns).latest ∧
      (List.foldl (pollStep c q1) ls1 ns).skipped =
        (List.foldl (pollStep c q2) ls2 ns).skipped ∧
      (List.foldl (pollStep c q1) ls1 ns).pushes = (List.foldl (pollStep c q2) ls2 ns).pushes
  | [], _, _, h1, h2, h3 => ⟨h1, h2, h3⟩
  | n :: rest, ls1, ls2, h1, h2, h3 => by
    obtain ⟨l1, s1, pu1, g1⟩ := ls1
    obtain ⟨l2, s2, pu2, g2⟩ := ls2
    simp only at h1 h2 h3
    subst h1
    subst h2
    subst h3
    rw [List.foldl_cons, List.foldl_cons]
    apply foldl_pollStep_indep c q1 q2 rest <;>
      (cases l1 <;> cases c <;> simp only [pollStep] <;> split_ifs <;> rfl)

theorem foldl_pollStep_pushes (c : Option String) (q : Nat → Except String Unit) :
    ∀ (ns : List GitHubNotification) (ls : LoopState),
      (List.foldl (pollStep c q) ls ns).pushes =
        ls.pushes ++ (ns.filter (qualifies c)).map mkPushPayload
  | [], ls => by simp
  | n :: rest, ls => by
    rw [List.foldl_cons, foldl_pollStep_pushes c q rest]
    by_cases hn : n.unread = false
    · have hq : qualifies c n = false := by simp [qualifies, hn]
      simp [pollStep, hn, List.filter_cons, hq]
    · have hn' : n.unread = true := by
        revert hn
        cases n.unread <;> simp
      cases c with
      | none =>
        have hq : qualifies none n = true := by simp [qualifies, hn']
        simp [pollStep, hn, List.filter_cons, hq]
      | some cut =>
        by_cases hlt : strLt n.updated_at cut
        · have hq : qualifies (some cut) n = false := by simp [qualifies, hn', hlt]
          simp [pollStep, hn, hlt, List.filter_cons, hq]
        · have hq : qualifies (some cut) n = true := by simp [qualifies, hn', hlt]
          simp [pollStep, hn, hlt, List.filter_cons, hq]

theorem pollStep_latest_pres (c : Option String) (q : Nat → Except String Unit)
    (ls : LoopState) (n : GitHubNotification) (h : ls.latest.isSome = true) :
    (pollStep c q ls n).latest.isSome = true := by
  obtain ⟨l, s, pu, g⟩ := ls
  cases l with
  | none => simp at h
  | some x =>
    by_cases hn : n.unread = false
    · simp [pollStep, hn]
    · cases c with
      | none => by_cases hx : strLt x n.updated_at <;> simp [pollStep, hn, hx]
      | some cut =>
        by_cases hx : strLt x n.updated_at <;> by_cases hc : strLt n.updated_at cut <;>
          simp [pollStep, hn, hx, hc]

theorem foldl_pollStep_latest_pres (c : Option String) (q : Nat → Except String Unit) :
    ∀ (ns : List GitHubNotification) (ls : LoopState), ls.latest.isSome = true →
      (List.foldl (pollStep c q) ls ns).latest.isSome = true
  | [], _, h => h
  | n :: rest, ls, h => by
    rw [List.foldl_cons]
    exact foldl_pollStep_latest_pres c q rest _ (pollStep_latest_pres c q ls n h)

theorem foldl_pollStep_latest_isSome (c : Option String) (q : Nat → Except String Unit) :
    ∀ (ns : List GitHubNotification) (ls : LoopState) (n : GitHubNotification),
      n ∈ ns → n.unread = true →
      (List.foldl (pollStep c q) ls ns).latest.isSome = true
  | [], _, _, hmem, _ => by simp at hmem
  | m :: rest, ls, n, hmem, hu => by
    rw [List.foldl_cons]
    rcases List.mem_cons.mp hmem with rfl | hmem'
    · apply foldl_pollStep_latest_pres
      obtain ⟨l, s, pu, g⟩ := ls
      cases l with
      | none =>
        cases c with
        | none => simp [pollStep, hu]
        | some cut => by_cases hc : strLt n.updated_at cut <;> simp [pollStep, hu, hc]
      | some x =>
        cases c with
        | none => by_cases hx : strLt x n.updated_at <;> simp [pollStep, hu, hx]
        | some cut =>
          by_cases hx : strLt x n.updated_at <;> by_cases hc : strLt n.updated_at cut <;>
            simp [pollStep, hu, hx, hc]
    · exact foldl_pollStep_latest_isSome c q rest _ n hmem' hu

theorem foldl_pollStep_latest_from (c : Option String) (q : Nat → Except String Unit) :
    ∀ (ns : List GitHubNotification) (ls : LoopState),
      (List.foldl (pollStep c q) ls ns).latest = ls.latest ∨
      ∃ n ∈ ns, n.unread = true ∧
        (List.foldl (pollStep c q) ls ns).latest = some n.updated_at
  | [], _ => Or.inl rfl
  | n :: rest, ls => by
    rw [List.foldl_cons]
    rcases foldl_pollStep_latest_from c q rest (pollStep c q ls n) with h | ⟨m, hm, hu, he⟩
    · rw [h]
      obtain ⟨l, s, pu, g⟩ := ls
      by_cases hn : n.unread = false
      · simp [pollStep, hn]
      · have hn' : n.unread = true := by
          revert hn
          cases n.unread <;> simp
        cases l with
        | none =>
          refine Or.inr ⟨n, by simp, hn', ?_⟩
          cases c with
          | none => simp [pollStep, hn']
          | some cut => by_cases hc : strLt n.updated_at cut <;> simp [pollStep, hn', hc]
        | some x =>
          by_cases hx : strLt x n.updated_at
          · refine Or.inr ⟨n, by simp, hn', ?_⟩
            cases c with
            | none => simp [pollStep, hn', hx]
            | some cut =>
              by_cases hc : strLt n.updated_at cut <;> simp [pollStep, hn', hx, hc]
          · refine Or.inl ?_
            cases c with
            | none => simp [pollStep, hn', hx]
            | some cut =>
              by_cases hc : strLt n.updated_at cut <;> simp [pollStep, hn', hx, hc]
    · exact Or.inr ⟨m, by simp [hm], hu, he⟩

theorem pollStep_latest_grow (c : Option String) (q : Nat → Except String Unit)
    (ls : LoopState) (n : GitHubNotification) :
    cursorLe ls.latest (pollStep c q ls n).latest ∧
      (n.unread = true → cursorLe (some n.updated_at) (pollStep c q ls n).latest) := by
  obtain ⟨l, s, pu, g⟩ := ls
  by_cases hn : n.unread = false
  · constructor
    · have hid : pollStep c q ⟨l, s, pu, g⟩ n = ⟨l, s, pu, g⟩ := by simp [pollStep, hn]
      rw [hid]
      exact cursorLe_refl _
    · intro hu
      rw [hu] at hn
      simp at hn
  · have hn' : n.unread = true := by
      revert hn
      cases n.unread <;> simp
    cases l with
    | none =>
      have hl : (pollStep c q ⟨none, s, pu, g⟩ n).latest = some n.updated_at := by
        cases c with
        | none => simp [pollStep, hn']
        | some cut => by_cases hc : strLt n.updated_at cut <;> simp [pollStep, hn', hc]
      rw [hl]
      exact ⟨trivial, fun _ => strLe_refl _⟩
    | some x =>
      by_cases hx : strLt x n.updated_at
      · have hl : (pollStep c q ⟨some x, s, pu, g⟩ n).latest = some n.updated_at := by
          cases c with
          | none => simp [pollStep, hn', hx]
          | some cut => by_cases hc : strLt n.updated_at cut <;> simp [pollStep, hn', hx, hc]
        rw [hl]
        exact ⟨Or.inl hx, fun _ => strLe_refl _⟩
      · have hl : (pollStep c q ⟨some x, s, pu, g⟩ n).latest = some x := by
          cases c with
          | none => simp [pollStep, hn', hx]
          | some cut => by_cases hc : strLt n.updated_at cut <;> simp [pollStep, hn', hx, hc]
        rw [hl]
        exact ⟨strLe_refl _, fun _ => strLe_of_not_lt hx⟩

theorem foldl_pollStep_latest_grow (c : Option String) (q : Nat → Except String Unit) :
    ∀ (ns : List GitHubNotification) (ls : LoopState),
      cursorLe ls.latest (List.foldl (pollStep c q) ls ns).latest ∧
        ∀ n ∈ ns, n.unread = true →
          cursorLe (some n.updated_at) (List.foldl (pollStep c q) ls ns).latest
  | [], ls => ⟨cursorLe_refl _, by simp⟩
  | n :: rest, ls => by
    rw [List.foldl_cons]
    obtain ⟨h1, h2⟩ := foldl_pollStep_latest_grow c q rest (pollStep c q ls n)
    obtain ⟨g1, g2⟩ := pollStep_latest_grow c q ls n
    refine ⟨cursorLe_trans g1 h1, ?_⟩
    intro m hm hu
    rcases List.mem_cons.mp hm with rfl | hm'
    · exact cursorLe_trans (g2 hu) h1
    · exact h2 m hm' hu

/-- Claim C3: with an endpoint registered and a successfully fetched batch,
the outcome of the individual push attempts has no effect on the cycle's
state or control flow: the resulting state, the sequence of forward attempts
and the skipped count are identical for any two outcome assignments, the
attempts are exactly the qualifying (unread, not cutoff-skipped) records in
order — so a failure on one record never stops the remaining records — and
whenever the batch contains an unread record the cursor is set to the
maximum unread `updated_at` of the batch, independently of which forwards
failed. -/
theorem forward_failure_independent (st : PersistedState) (ep : String) (now : Nat)
    (ns : List GitHubNotification) (q1 q2 : Nat → Except String Unit)
    (hep : st.endpoint = some ep) :
    (poll_and_push st now (.ok ns) q1).state = (poll_and_push st now (.ok ns) q2).state ∧
      (poll_and_push st now (.ok ns) q1).pushes = (poll_and_push st now (.ok ns) q2).pushes ∧
      (poll_and_push st now (.ok ns) q1).skipped =
        (poll_and_push st now (.ok ns) q2).skipped ∧
      (poll_and_push st now (.ok ns) q1).pushes =
        (ns.filter (qualifies (cutoffOf st now))).map mkPushPayload ∧
      ((∃ n ∈ ns, n.unread = true) →
        ∃ m, (poll_and_push st now (.ok ns) q1).state.last_poll = some m ∧
          (∃ n ∈ ns, n.unread = true ∧ n.updated_at = m) ∧
          ∀ n ∈ ns, n.unread = true → strLe n.updated_at m) := by
  obtain ⟨e1, e2, e3⟩ :=
    foldl_pollStep_indep (cutoffOf st now) q1 q2 ns ⟨none, 0, [], []⟩ ⟨none, 0, [], []⟩
      rfl rfl rfl
  simp only [poll_and_push, hep]
  refine ⟨?_, ?_, ?_, ?_, ?_⟩
  · rw [e1]
  · exact e3
  · exact e2
  · rw [foldl_pollStep_pushes (cutoffOf st now) q1 ns ⟨none, 0, [], []⟩]
    rfl
  · rintro ⟨n0, hm0, hu0⟩
    have hsome :=
      foldl_pollStep_latest_isSome (cutoffOf st now) q1 ns ⟨none, 0, [], []⟩ n0 hm0 hu0
    obtain ⟨m, hm⟩ := Option.isSome_iff_exists.mp hsome
    refine ⟨m, ?_, ?_, ?_⟩
    · rw [hm]
    · rcases foldl_pollStep_latest_from (cutoffOf st now) q1 ns ⟨none, 0, [], []⟩ with
        h | ⟨n, hn, hu, he⟩
      · rw [h] at hm
        cases hm
      · rw [he] at hm
        cases hm
        exact ⟨n, hn, hu, rfl⟩
    · intro n hn hu
      have hg := (foldl_pollStep_latest_grow (cutoffOf st now) q1 ns ⟨none, 0, [], []⟩).2
        n hn hu
      rw [hm] at hg
      exact hg

theorem forward_failure_independent_witness :
    (poll_and_push ⟨some "https://push.example/ep1", none⟩ 1705147260
        (.ok [⟨"n1", true, "subscribed", "2024-01-13T12:00:00Z", "t", "Issue", "o/r"⟩])
        (fun _ => .ok ())).state =
      (poll_and_push ⟨some "https://push.example/ep1", none⟩ 1705147260
        (.ok [⟨"n1", true, "subscribed", "2024-01-13T12:00:00Z", "t", "Issue", "o/r"⟩])
        (fun _ => .error "delivery failed")).state ∧
    (poll_and_push ⟨some "https://push.example/ep1", none⟩ 1705147260
        (.ok [⟨"n1", true, "subscribed", "2024-01-13T12:00:00Z", "t", "Issue", "o/r"⟩])
        (fun _ => .ok ())).pushes =
      (poll_and_push ⟨some "https://push.example/ep1", none⟩ 1705147260
        (.ok [⟨"n1", true, "subscribed", "2024-01-13T12:00:00Z", "t", "Issue", "o/r"⟩])
        (fun _ => .error "delivery failed")).pushes :=
  ⟨(forward_failure_independent _ "https://push.example/ep1" _ _ _ _ rfl).1,
    (forward_failure_independent _ "https://push.example/ep1" _ _ _ _ rfl).2.1⟩

/-! ### Cursor evolution across cycles -/

theorem runCycle_cursorLe (st : PersistedState) (i : CycleInput)
    (h : batchRespects st.last_poll i) : cursorLe st.last_poll (runCycle st i).last_poll := by
  simp only [runCycle]
  cases hep : st.endpoint with
  | none =>
    simp only [poll_and_push, hep]
    exact cursorLe_refl _
  | some ep =>
    cases hf : i.fetchResult with
    | error e =>
      simp only [poll_and_push, hep, hf]
      exact cursorLe_refl _
    | ok ns =>
      simp only [batchRespects, hf] at h
      simp only [poll_and_push, hep, hf]
      cases hl : (List.foldl (pollStep (cutoffOf st i.now) i.pushResult)
          ⟨none, 0, [], []⟩ ns).latest with
      | none =>
        simp only [hl]
        exact cursorLe_refl _
      | some ts =>
        simp only [hl]
        rcases foldl_pollStep_latest_from (cutoffOf st i.now) i.pushResult ns
            ⟨none, 0, [], []⟩ with hfrom | ⟨n, hn, hu, he⟩
        · rw [hfrom] at hl
          cases hl
        · rw [he] at hl
          cases hl
          exact h n hn hu

theorem cursorTrace_chain : ∀ (is : List CycleInput) (st : PersistedState),
    SinceRespecting st is → List.Chain' cursorLe (cursorTrace st is)
  | [], st, _ => by simp [cursorTrace]
  | i :: rest, st, h => by
    obtain ⟨h1, h2⟩ := h
    have htail := cursorTrace_chain rest (runCycle st i) h2
    have hstep := runCycle_cursorLe st i h1
    rw [cursorTrace, List.scanl_cons]
    rw [cursorTrace] at htail
    refine List.chain'_cons'.mpr ⟨?_, htail⟩
    intro y hy
    cases rest with
    | nil =>
      simp [List.scanl] at hy
      rw [← hy]
      exact hstep
    | cons j js =>
      rw [List.scanl_cons] at hy
      simp at hy
      rw [← hy]
      exact hstep

/-- Claim C1 (amended): over any sequence of poll cycles in which each
fetched batch contains at least one unread record *and honors the `since`
lower bound* — every unread record of a batch has `updated_at` at or above
the cursor stored at the start of that cycle — the stored cursor never
decreases: along the whole trace, every later cursor value is
lexicographically at or above every earlier one.  The since-respecting
condition is forced: the cycle recomputes `latest_timestamp` from scratch,
so a batch containing only unread records older than the stored cursor
moves the cursor backwards (see the counterexample). -/
theorem cursor_monotone_amended (st : PersistedState) (is : List CycleInput)
    (hs : SinceRespecting st is) (_hu : ∀ i ∈ is, hasUnread i) :
    List.Pairwise cursorLe (cursorTrace st is) :=
  List.chain'_iff_pairwise.mp (cursorTrace_chain is st hs)

theorem cursor_monotone_witness :
    List.Pairwise cursorLe (cursorTrace ⟨some "https://push.example/ep1",
      some "2024-01-01T00:00:00Z"⟩
      [⟨1706788800, .ok [⟨"n1", true, "subscribed", "2024-02-01T00:00:00Z", "t", "Issue",
        "o/r"⟩], fun _ => .ok ()⟩]) := by
  apply cursor_monotone_amended
  · refine ⟨?_, trivial⟩
    intro n hn hu
    simp only [List.mem_singleton] at hn
    subst hn
    exact Or.inl (by decide)
  · intro i hi
    simp only [List.mem_singleton] at hi
    subst hi
    exact ⟨_, rfl, _, List.mem_singleton_self _, rfl⟩

theorem cursor_monotone_counterexample :
    (poll_and_push ⟨some "https://push.example/ep1", some "2024-01-13T12:00:00Z"⟩ 1705147200
        (.ok [⟨"n1", true, "subscribed", "2020-01-01T00:00:00Z", "t", "Issue", "o/r"⟩])
        (fun _ => .ok ())).state.last_poll = some "2020-01-01T00:00:00Z" ∧
      strLt "2020-01-01T00:00:00Z" "2024-01-13T12:00:00Z" := by
  constructor
  · rfl
  · decide

theorem fmt_at_253402300690 : format_unix_to_iso 253402300690 = "9999-12-31T23:58:10Z" := by
  have hv : ValidDT ⟨9999, 12, 31, 23, 58, 10⟩ := by
    simp only [ValidDT]
    decide
  have hc : fromComponents ⟨9999, 12, 31, 23, 58, 10⟩ = 253402300690 := by
    simp only [fromComponents, civilToDays]
    norm_num [daysFromYears_1970_8029, show daysBeforeMonth (isLeapYear 9999) 12 = 334 from rfl]
  rw [format_eq_render hv hc]
  decide

theorem fmt_at_253402300750 : format_unix_to_iso 253402300750 = "9999-12-31T23:59:10Z" := by
  have hv : ValidDT ⟨9999, 12, 31, 23, 59, 10⟩ := by
    simp only [ValidDT]
    decide
  have hc : fromComponents ⟨9999, 12, 31, 23, 59, 10⟩ = 253402300750 := by
    simp only [fromComponents, civilToDays]
    norm_num [daysFromYears_1970_8029, show daysBeforeMonth (isLeapYear 9999) 12 = 334 from rfl]
  rw [format_eq_render hv hc]
  decide

theorem fmt_at_253402300800 : format_unix_to_iso 253402300800 = "10000-01-01T00:00:00Z" := by
  have hv : ValidDT ⟨10000, 1, 1, 0, 0, 0⟩ := by
    simp only [ValidDT]
    decide
  have hc : fromComponents ⟨10000, 1, 1, 0, 0, 0⟩ = 253402300800 := by
    simp only [fromComponents, civilToDays]
    norm_num [daysFromYears_1970_8030, show daysBeforeMonth (isLeapYear 10000) 1 = 0 from rfl]
  rw [format_eq_render hv hc]
  decide

/-- Claim C2 (amended): on a first poll (cursor absent, endpoint registered)
with `120 ≤ now` and `now` before `10000-01-01T00:00:00Z` (unix second
253402300800, so every timestamp involved renders with a four-digit year),
for a batch of one unread record dated 120 seconds before `now` and one
dated 10 seconds before `now` (in either order), exactly the newer record is
forwarded, the older is counted as skipped, both contribute to the cursor
candidate, and the cursor is set to the larger of the two `updated_at`
values.  The year bound is forced: past it, lexicographic comparison against
the cutoff misorders five-digit years (see the counterexample). -/
theorem first_poll_cutoff_amended (st : PersistedState) (ep : String) (now : Nat)
    (r1 r2 : GitHubNotification) (q : Nat → Except String Unit)
    (hep : st.endpoint = some ep) (hfirst : st.last_poll = none)
    (h120 : 120 ≤ now) (hbound : now < 253402300800)
    (hu1 : r1.unread = true) (hu2 : r2.unread = true)
    (ht1 : r1.updated_at = format_unix_to_iso (now - 120))
    (ht2 : r2.updated_at = format_unix_to_iso (now - 10)) :
    (poll_and_push st now (.ok [r1, r2]) q).pushes = [mkPushPayload r2] ∧
      (poll_and_push st now (.ok [r1, r2]) q).skipped = 1 ∧
      (poll_and_push st now (.ok [r1, r2]) q).state.last_poll = some r2.updated_at ∧
      (poll_and_push st now (.ok [r2, r1]) q).pushes = [mkPushPayload r2] ∧
      (poll_and_push st now (.ok [r2, r1]) q).skipped = 1 ∧
      (poll_and_push st now (.ok [r2, r1]) q).state.last_poll = some r2.updated_at ∧
      strLe r1.updated_at r2.updated_at := by
  have hlt1 : strLt r1.updated_at (format_unix_to_iso (now - 60)) := by
    rw [ht1]
    exact strLt_iff.mpr (format_lt (by omega) (by omega))
  have hnlt2 : ¬ strLt r2.updated_at (format_unix_to_iso (now - 60)) := by
    rw [ht2, strLt_iff]
    exact lt_asymm (format_lt (by omega) (by omega))
  have hlt12 : strLt r1.updated_at r2.updated_at := by
    rw [ht1, ht2]
    exact strLt_iff.mpr (format_lt (by omega) (by omega))
  have hn21 : ¬ strLt r2.updated_at r1.updated_at := by
    rw [strLt_iff] at hlt12 ⊢
    exact lt_asymm hlt12
  have hcut : cutoffOf st now = some (format_unix_to_iso (now - 60)) := by
    simp [cutoffOf, hfirst]
  refine ⟨?_, ?_, ?_, ?_, ?_, ?_, Or.inl hlt12⟩ <;>
    simp [poll_and_push, hep, hcut, pollStep, hu1, hu2, hlt1, hnlt2, hlt12, hn21]

theorem first_poll_cutoff_witness :
    (poll_and_push ⟨some "https://push.example/ep1", none⟩ 1705147260
        (.ok [⟨"n1", true, "subscribed", format_unix_to_iso (1705147260 - 120), "t", "Issue",
          "o/r"⟩,
          ⟨"n2", true, "subscribed", format_unix_to_iso (1705147260 - 10), "t", "Issue",
            "o/r"⟩])
        (fun _ => .ok ())).pushes =
      [mkPushPayload ⟨"n2", true, "subscribed", format_unix_to_iso (1705147260 - 10), "t",
        "Issue", "o/r"⟩] :=
  (first_poll_cutoff_amended ⟨some "https://push.example/ep1", none⟩ "https://push.example/ep1"
    1705147260 _ _ _ rfl rfl (by norm_num) (by norm_num) rfl rfl rfl rfl).1

theorem first_poll_cutoff_counterexample :
    (poll_and_push ⟨some "https://push.example/ep1", none⟩ 253402300810
        (.ok [⟨"n1", true, "subscribed", format_unix_to_iso (253402300810 - 120), "t", "Issue",
          "o/r"⟩,
          ⟨"n2", true, "subscribed", format_unix_to_iso (253402300810 - 10), "t", "Issue",
            "o/r"⟩])
        (fun _ => .ok ())).pushes = [] ∧
      (poll_and_push ⟨some "https://push.example/ep1", none⟩ 253402300810
        (.ok [⟨"n1", true, "subscribed", format_unix_to_iso (253402300810 - 120), "t", "Issue",
          "o/r"⟩,
          ⟨"n2", true, "subscribed", format_unix_to_iso (253402300810 - 10), "t", "Issue",
            "o/r"⟩])
        (fun _ => .ok ())).skipped = 2 := by
  have e1 : format_unix_to_iso (253402300810 - 120) = "9999-12-31T23:58:10Z" := by
    rw [show (253402300810 : Nat) - 120 = 253402300690 from by norm_num,
      fmt_at_253402300690]
  have e2 : format_unix_to_iso (253402300810 - 10) = "10000-01-01T00:00:00Z" := by
    rw [show (253402300810 : Nat) - 10 = 253402300800 from by norm_num, fmt_at_253402300800]
  have e3 : format_unix_to_iso (253402300810 - 60) = "9999-12-31T23:59:10Z" := by
    rw [show (253402300810 : Nat) - 60 = 253402300750 from by norm_num, fmt_at_253402300750]
  rw [e1, e2]
  have hcut : cutoffOf ⟨some "https://push.example/ep1", none⟩ 253402300810 =
      some "9999-12-31T23:59:10Z" := by
    rw [cutoffOf]
    simp only [Option.isNone_none, if_pos]
    rw [e3]
  simp only [poll_and_push, hcut]
  exact ⟨by decide, by decide⟩
